import Mathlib

/-!
Verification of the ams-auth-api query-building and auth core.

The definitions below are a shallow embedding of the TypeScript source:

* `src/helper/query-builder.ts` — schema-directed filter compilation
  (`getFieldMeta`, `parseValue`, `buildCondition`, `buildFilterConditions`,
  `getNestedFields`);
* the validation / field-selection / response-shaping helpers
  (`validatePagination`, `buildFieldSelections`, `createFormattedResponse`,
  `executeFormattedQuery`);
* the auth controller login failure paths and token expiry derivation;
* the permission create handler.

JavaScript values flowing through these functions are modelled by the
inductive `Js`; a JS runtime fault (TypeError) is modelled by `Option`
results where the source can actually fault.
-/

/-- A JavaScript/JSON value as it flows through the query builder and the
response assembler.  `nan` models the number NaN, `undefinedVal` models the value
undefined, `date` models a Date object by the raw constructor argument and
`invalidDate` the Invalid Date produced by a non-string constructor
argument. -/
inductive Js where
  | str (s : String)
  | num (n : Int)
  | nan
  | boolVal (b : Bool)
  | date (raw : String)
  | invalidDate
  | jsNull
  | undefinedVal
  | arr (xs : List Js)
  | obj (fields : List (String × Js))

/-- Field kinds as reported by the Prisma DMMF. -/
inductive FieldKind where
  | scalar
  | enum
  | object
  | unsupported
  deriving Repr, DecidableEq

/-- One DMMF field descriptor: the metadata `buildCondition` consults. -/
structure FieldMeta where
  name : String
  kind : FieldKind
  type : String
  isList : Bool
  relationName : Option String
  deriving Repr, DecidableEq

/-- A DMMF model or composite type: a name plus its field descriptors. -/
structure Model where
  name : String
  fields : List FieldMeta
  deriving Repr, DecidableEq

/-- The DMMF datamodel: models first, composite types second, exactly the
two collections `getFieldMeta` searches. -/
structure Datamodel where
  models : List Model
  types : List Model
  deriving Repr, DecidableEq

/-- `getFieldMeta` from query-builder.ts: look the field up in the named
model; only if no model has that name, fall back to the composite types. -/
def getFieldMeta (dm : Datamodel) (modelName field : String) : Option FieldMeta :=
  match dm.models.find? (fun m => m.name == modelName) with
  | some m => m.fields.find? (fun f => f.name == field)
  | none =>
    match dm.types.find? (fun t => t.name == modelName) with
    | some t => t.fields.find? (fun f => f.name == field)
    | none => none

/-- Split a character list at a separator character; auxiliary for
`jsSplit`. -/
def jsSplitAux (sep : Char) : List Char → List Char → List String
  | [], acc => [String.mk acc.reverse]
  | c :: rest, acc =>
    if c == sep then String.mk acc.reverse :: jsSplitAux sep rest []
    else jsSplitAux sep rest (c :: acc)

/-- Model of the JS String.prototype.split with a one-character separator
(the code only splits on comma, colon and dot).  Like in JS, the empty
string splits to a single empty piece and a trailing separator yields a
trailing empty piece. -/
def jsSplit (sep : Char) (s : String) : List String :=
  jsSplitAux sep s.toList []

/-- Drop leading whitespace from a character list. -/
def dropLeadingWs (cs : List Char) : List Char :=
  cs.dropWhile Char.isWhitespace

/-- Model of String.prototype.trim. -/
def jsTrim (s : String) : String :=
  String.mk (((dropLeadingWs s.toList).reverse.dropWhile Char.isWhitespace).reverse)

/-- Model of String.prototype.toLowerCase (ASCII, which covers every
literal the coercion tables compare against). -/
def jsToLower (s : String) : String :=
  String.mk (s.toList.map Char.toLower)

/-- Numeric value of a list of decimal digit characters. -/
def digitsToNat (ds : List Char) : Nat :=
  ds.foldl (fun n c => 10 * n + (c.toNat - '0'.toNat)) 0

/-- Model of the JS builtin parseInt(s, 10) on the decimal fragment the
filter values use: optional sign followed by leading digits; no digits
gives NaN.  (parseInt also accepts leading whitespace, modelled by
trimming.) -/
def jsParseInt (s : String) : Js :=
  match dropLeadingWs s.toList with
  | '-' :: rest =>
    let ds := rest.takeWhile Char.isDigit
    if ds.isEmpty then .nan else .num (-(digitsToNat ds : Int))
  | '+' :: rest =>
    let ds := rest.takeWhile Char.isDigit
    if ds.isEmpty then .nan else .num (digitsToNat ds)
  | cs =>
    let ds := cs.takeWhile Char.isDigit
    if ds.isEmpty then .nan else .num (digitsToNat ds)

/-- Model of the JS builtin parseFloat on the same fragment.  The filter
compiler only ever feeds it query-string literals; fractional digits are
truncated toward zero here since `Js.num` carries integers and no claim
depends on a fractional filter value. -/
def jsParseFloat (s : String) : Js :=
  jsParseInt s

/-- Model of JSON.parse restricted to the flat literals a filter value can
be: null, true, false, or an all-digit number.  Every other string is a
parse failure (none), which the Json branch of parseValue turns back into
the raw string. -/
def jsJsonParse (s : String) : Option Js :=
  let t := jsTrim s
  if t == "null" then some .jsNull
  else if t == "true" then some (.boolVal true)
  else if t == "false" then some (.boolVal false)
  else if !t.isEmpty && t.toList.all Char.isDigit then some (.num (digitsToNat t.toList))
  else none

/-- `parseValue` from query-builder.ts: coerce a raw string filter value
according to the declared type of the leaf field. -/
def parseValue (field : FieldMeta) (val : String) : Js :=
  match field.type with
  | "String" => .str val
  | "Int" => jsParseInt val
  | "BigInt" => jsParseInt val
  | "Float" => jsParseFloat val
  | "Decimal" => jsParseFloat val
  | "Boolean" => .boolVal (jsToLower val == "true" || jsToLower val == "yes" || val == "1")
  | "DateTime" => .date val
  | "Json" =>
    match jsJsonParse val with
    | some j => j
    | none => .str val
  | _ => .str val

/-- parseValue applied to a present-or-missing raw value.  A filter item
with no colon destructures to an undefined rawValue; parseValue then gives
NaN for the numeric types, an Invalid Date for DateTime, passes undefined
through for String, Json (whose JSON.parse failure is caught) and enums —
and for Boolean it faults: undefined.toLowerCase() raises a TypeError,
modelled by the `none` result. -/
def parseValueOpt (field : FieldMeta) : Option String → Option Js
  | some v => some (parseValue field v)
  | none =>
    if field.type == "Int" || field.type == "BigInt" ||
        field.type == "Float" || field.type == "Decimal" then some .nan
    else if field.type == "Boolean" then none
    else if field.type == "DateTime" then some .invalidDate
    else some .undefinedVal

/-- A compiled Prisma condition: the field list of a JS condition object.
The empty list is the empty condition returned for unsupported paths. -/
abbrev Condition := List (String × Js)

/-- `buildCondition` from query-builder.ts: recursively compile one dotted
path and raw value into a Prisma condition against the named model.  The
outer Option models a thrown TypeError (the Boolean-with-undefined-value
fault of parseValue), which propagates out of the recursion. -/
def buildCondition (dm : Datamodel) (modelName : String) (path : List String)
    (value : Option String) : Option Condition :=
  match path with
  | [] => some []
  | f :: rest =>
    match getFieldMeta dm modelName f with
    | none => some []
    | some fieldMeta =>
      match rest with
      | [] =>
        if fieldMeta.kind = .scalar ∨ fieldMeta.kind = .enum then
          match parseValueOpt fieldMeta value with
          | none => none
          | some parsedValue =>
            some (if fieldMeta.isList then [(f, .obj [("has", parsedValue)])]
                  else [(f, parsedValue)])
        else some []
      | _ :: _ =>
        let nextModelName := if fieldMeta.kind = .object then fieldMeta.type else modelName
        match buildCondition dm nextModelName rest value with
        | none => none
        | some nested =>
          if nested.isEmpty then some []
          else if fieldMeta.kind = .object then
            some (if fieldMeta.isList then
                    [(f, .obj [("some", if fieldMeta.relationName.isSome then .obj nested
                                        else .obj [("is", .obj nested)])])]
                  else
                    [(f, if fieldMeta.relationName.isSome then .obj nested
                         else .obj [("is", .obj nested)])])
          else some []

/-- Where buildCondition raises: walking the path exactly as buildCondition
does, the run throws exactly when the terminal segment resolves to a
scalar or enum field of type Boolean while the raw value is missing. -/
def buildConditionThrows (dm : Datamodel) (modelName : String) :
    List String → Option String → Bool
  | [], _ => false
  | [f], value =>
    match getFieldMeta dm modelName f with
    | none => false
    | some meta =>
      if meta.kind = .scalar ∨ meta.kind = .enum then
        value.isNone && meta.type == "Boolean"
      else false
  | f :: rest, value =>
    match getFieldMeta dm modelName f with
    | none => false
    | some meta =>
      buildConditionThrows dm (if meta.kind = .object then meta.type else modelName)
        rest value

/-- Split one filter item on ":" the way the JS destructuring does: the
key is the part before the first colon, the raw value the part between the
first and second colon, or undefined (none) when there is no colon. -/
def splitItem (item : String) : String × Option String :=
  let parts := jsSplit ':' item
  (parts.headD "", parts[1]?)

/-- Append a value to the group of its key, inserting the key at the end
on first sight — the insertion-order behaviour of the JS Map. -/
def insertGroup (groups : List (String × List (Option String))) (k : String)
    (v : Option String) : List (String × List (Option String)) :=
  match groups with
  | [] => [(k, [v])]
  | (k', vs) :: rest =>
    if k' == k then (k', vs ++ [v]) :: rest
    else (k', vs) :: insertGroup rest k v

/-- Group the parsed items by raw key, keys in first-occurrence order. -/
def groupItems (items : List (String × Option String)) :
    List (String × List (Option String)) :=
  items.foldl (fun gs kv => insertGroup gs kv.1 kv.2) []

/-- One iteration of the condition-building loop over the key groups: a
single value compiles directly (dropped if empty), several values for one
key become an OR group of their nonempty compilations (dropped if all are
empty).  An exception from buildCondition (outer none) escapes the loop. -/
def groupStep (dm : Datamodel) (modelName : String) (conds : List Condition)
    (kvs : String × List (Option String)) : Option (List Condition) :=
  let path := jsSplit '.' kvs.1
  match kvs.2 with
  | [v] =>
    match buildCondition dm modelName path v with
    | none => none
    | some condition =>
      some (if condition.isEmpty then conds else conds ++ [condition])
  | vs =>
    match vs.mapM (buildCondition dm modelName path) with
    | none => none
    | some cs =>
      let orConditions := cs.filter (fun c => !c.isEmpty)
      some (if orConditions.isEmpty then conds
            else conds ++ [[("OR", .arr (orConditions.map .obj))]])

/-- The contribution of one key group to the output: none propagates a
thrown TypeError, some none is a silently dropped group, some (some c)
appends the condition c. -/
def groupCondition (dm : Datamodel) (modelName : String)
    (kvs : String × List (Option String)) : Option (Option Condition) :=
  let path := jsSplit '.' kvs.1
  match kvs.2 with
  | [v] =>
    match buildCondition dm modelName path v with
    | none => none
    | some condition =>
      some (if condition.isEmpty then none else some condition)
  | vs =>
    match vs.mapM (buildCondition dm modelName path) with
    | none => none
    | some cs =>
      let orConditions := cs.filter (fun c => !c.isEmpty)
      some (if orConditions.isEmpty then none
            else some [("OR", .arr (orConditions.map .obj))])

/-- Turn the key groups into the output condition list (none models a
thrown TypeError escaping the loop). -/
def conditionsOfGroups (dm : Datamodel) (modelName : String)
    (groups : List (String × List (Option String))) : Option (List Condition) :=
  groups.foldlM (groupStep dm modelName) []

/-- `buildFilterConditions` from query-builder.ts: parse a flat
key:value,key:value filter string into a list of Prisma conditions.  A
missing or empty (falsy) filter string yields no conditions; none models
a thrown TypeError. -/
def buildFilterConditions (dm : Datamodel) (modelName : String)
    (filterParam : Option String) : Option (List Condition) :=
  match filterParam with
  | none => some []
  | some s =>
    if s = "" then some []
    else conditionsOfGroups dm modelName (groupItems ((jsSplit ',' s).map splitItem))

/-- The values carried by the items of one key, in item order. -/
def valuesOfKey (items : List (String × Option String)) (k : String) :
    List (Option String) :=
  (items.filter (fun kv => kv.1 == k)).map (fun kv => kv.2)

/-- Look a key up among the groups. -/
def groupsFind (groups : List (String × List (Option String))) (k : String) :
    Option (List (Option String)) :=
  (groups.find? (fun kv => kv.1 == k)).map (fun kv => kv.2)

/-- A small concrete datamodel used by the scenario theorems and
witnesses: an entity with a plain enum field and scalar fields, an entity
with to-many and to-one relations (relationName present) and list and
non-list embedded composites (relationName absent), and the composite
types themselves. -/
def exampleDm : Datamodel where
  models :=
    [ { name := "Thing"
      , fields :=
          [ { name := "status", kind := .enum, type := "Status", isList := false, relationName := none }
          , { name := "name", kind := .scalar, type := "String", isList := false, relationName := none }
          , { name := "active", kind := .scalar, type := "Boolean", isList := false, relationName := none }
          , { name := "rank", kind := .scalar, type := "Int", isList := false, relationName := none }
          , { name := "tags", kind := .scalar, type := "String", isList := true, relationName := none } ] }
    , { name := "Parent"
      , fields :=
          [ { name := "posts", kind := .object, type := "Post", isList := true, relationName := some "PostToParent" }
          , { name := "profile", kind := .object, type := "Person", isList := false, relationName := some "PersonToParent" }
          , { name := "contactInfo", kind := .object, type := "ContactInfo", isList := false, relationName := none }
          , { name := "phones", kind := .object, type := "Phone", isList := true, relationName := none }
          , { name := "name", kind := .scalar, type := "String", isList := false, relationName := none } ] }
    , { name := "Post"
      , fields :=
          [ { name := "title", kind := .scalar, type := "String", isList := false, relationName := none } ] }
    , { name := "Person"
      , fields :=
          [ { name := "firstName", kind := .scalar, type := "String", isList := false, relationName := none } ] } ]
  types :=
    [ { name := "ContactInfo"
      , fields :=
          [ { name := "city", kind := .scalar, type := "String", isList := false, relationName := none } ] }
    , { name := "Phone"
      , fields :=
          [ { name := "number", kind := .scalar, type := "String", isList := false, relationName := none } ] } ]

/-- A node of a Prisma selection tree: a field maps to true (leaf) or to
an object with a nested select map. -/
inductive Sel where
  | leaf
  | node (select : List (String × Sel))

/-- A selection map: the entries of one select object, in insertion
order. -/
abbrev SelMap := List (String × Sel)

/-- Set a key in a selection map, JS-object style: an existing key keeps
its position, a new key goes to the end. -/
def setKey (m : SelMap) (k : String) (v : Sel) : SelMap :=
  match m with
  | [] => [(k, v)]
  | (k', v') :: rest =>
    if k' == k then (k', v) :: rest
    else (k', v') :: setKey rest k v

/-- Look a key up in a selection map. -/
def getKey (m : SelMap) (k : String) : Option Sel :=
  match m with
  | [] => none
  | (k', v') :: rest => if k' == k then some v' else getKey rest k

/-- The fixed set of JSON/composite fields that buildFieldSelections
cannot descend into at the Prisma level. -/
def jsonFields : List String :=
  ["metadata", "devices", "personalInfo", "contactInfo", "identification"]

/-- The conservative identifier test of buildFieldSelections (the regex
accepting a letter or underscore followed by letters, digits, underscores
and dots). -/
def isValidFieldName (s : String) : Bool :=
  match s.toList with
  | [] => false
  | c :: rest =>
    (c.isAlpha || c == '_') &&
      rest.all (fun d => d.isAlphanum || d == '_' || d == '.')

/-- One entry insertion of buildFieldSelections: walk the dotted parts,
creating nested select nodes.  A part in `jsonFields` truncates the walk,
selecting the whole composite (leaf) and skipping the final assignment.
Walking into a part already selected as a leaf leaves the JS cursor
undefined, so the next access faults: modelled by `none`. -/
def insertSelection (m : SelMap) (parts : List String) : Option SelMap :=
  match parts with
  | [] => some m
  | [last] => some (setKey m last .leaf)
  | p :: rest =>
    if jsonFields.contains p then some (setKey m p .leaf)
    else
      match getKey m p with
      | none => (insertSelection [] rest).map (fun sub => setKey m p (.node sub))
      | some (.node sub) => (insertSelection sub rest).map (fun sub' => setKey m p (.node sub'))
      | some .leaf => none

/-- One loop iteration of buildFieldSelections: trim the entry, skip it
when empty or when it fails the identifier test, otherwise insert its
dotted parts. -/
def selectionStep (m : SelMap) (fieldRaw : String) : Option SelMap :=
  let field := jsTrim fieldRaw
  if field == "" then some m
  else if !isValidFieldName field then some m
  else insertSelection m (jsSplit '.' field)

/-- `buildFieldSelections` from the response helper: seed the tree with
id, then insert each comma-separated entry, skipping empty entries and
entries failing the identifier test.  `none` models the TypeError the JS
code raises when an entry descends through a field already selected as a
leaf. -/
def buildFieldSelections (fields : String) : Option SelMap :=
  if jsTrim fields == "" then some [("id", .leaf)]
  else (jsSplit ',' fields).foldlM selectionStep [("id", .leaf)]

/-- The selection tree one dotted entry denotes when built into fresh
nodes: every non-final non-composite segment becomes a select node, a
final segment a leaf, and the first JSON composite at a non-final
position ends the walk with the composite selected whole. -/
def entryMap : List String → SelMap
  | [] => []
  | [last] => [(last, .leaf)]
  | p :: rest =>
    if jsonFields.contains p then [(p, .leaf)]
    else [(p, .node (entryMap rest))]

/-- The value entryMap assigns to the leading segment. -/
def entrySel (p : String) (rest : List String) : Sel :=
  match rest with
  | [] => .leaf
  | _ :: _ =>
    if jsonFields.contains p then .leaf
    else .node (entryMap rest)

/-- One entry insertion of getNestedFields: the same walk as
`insertSelection` but with no JSON special case and no validation. -/
def insertSelectionNF (m : SelMap) (parts : List String) : Option SelMap :=
  match parts with
  | [] => some m
  | [last] => some (setKey m last .leaf)
  | p :: rest =>
    match getKey m p with
    | none => (insertSelectionNF [] rest).map (fun sub => setKey m p (.node sub))
    | some (.node sub) => (insertSelectionNF sub rest).map (fun sub' => setKey m p (.node sub'))
    | some .leaf => none

/-- The reduce body of `getNestedFields` from query-builder.ts applied to
a present fields string: every trimmed entry is inserted, with no
validation and no JSON special case, over the initial map with id. -/
def getNestedFieldsCore (fields : String) : Option SelMap :=
  (jsSplit ',' fields).foldlM
    (fun m field => insertSelectionNF m (jsSplit '.' (jsTrim field)))
    [("id", .leaf)]

/-- `getNestedFields` itself returns undefined (the inner none) when the
fields parameter is absent or empty (falsy); the outer Option models the
possible TypeError of the reduce body. -/
def getNestedFields (fields : Option String) : Option (Option SelMap) :=
  match fields with
  | none => some none
  | some s => if s == "" then some none else (getNestedFieldsCore s).map some

/-- Model of entityType.charAt(0).toUpperCase() + entityType.slice(1). -/
def jsCapitalize (s : String) : String :=
  match s.toList with
  | [] => ""
  | c :: rest => String.mk (c.toUpper :: rest)

/-- Math.ceil(total / limit) on the naturals, for limit at least 1 (the
validator guarantees this; JS would give Infinity at limit 0). -/
def jsCeilDiv (total limit : Nat) : Nat :=
  (total + limit - 1) / limit

/-- `createSuccessResponse` from the response helper.  The timestamp the
JS code takes from the clock is threaded as the `now` parameter. -/
def createSuccessResponse (now message : String) (data : Js) : Js :=
  .obj [("status", .str "success"), ("message", .str message),
        ("data", data), ("timestamp", .str now)]

/-- The pagination block shared by every paginated shape. -/
def paginationBlock (total page limit : Nat) : Js :=
  let totalPages := jsCeilDiv total limit
  .obj [("total", .num total), ("page", .num page), ("limit", .num limit),
        ("totalPages", .num totalPages),
        ("hasNext", .boolVal (page < totalPages)),
        ("hasPrev", .boolVal (1 < page))]

/-- `createDocumentsResponse`: records under the data key plus a total
count. -/
def createDocumentsResponse (now : String) (data : List Js) (total : Nat)
    (documentType : String) : Js :=
  createSuccessResponse now (documentType ++ " documents retrieved successfully")
    (.obj [(documentType, .arr data), ("totalCount", .num total)])

/-- `createCountResponse`: the count only. -/
def createCountResponse (now : String) (total : Nat) (entityType : String) : Js :=
  createSuccessResponse now (entityType ++ " count retrieved successfully")
    (.obj [("count", .num total)])

/-- `createStandardPaginatedResponse`: records plus the pagination
block. -/
def createStandardPaginatedResponse (now : String) (data : List Js) (total page limit : Nat)
    (dataKey entityType : String) : Js :=
  createSuccessResponse now (entityType ++ " retrieved successfully")
    (.obj [(dataKey, .arr data), ("pagination", paginationBlock total page limit)])

/-- `createPaginationOnlyResponse`: the pagination block only. -/
def createPaginationOnlyResponse (now : String) (total page limit : Nat)
    (entityType : String) : Js :=
  createSuccessResponse now (entityType ++ " pagination retrieved successfully")
    (.obj [("pagination", paginationBlock total page limit)])

/-- The three output flags of the response assembler. -/
structure ResponseFormatOptions where
  documents : Bool
  pagination : Bool
  count : Bool
  deriving Repr, DecidableEq

/-- The 3-bit flag dispatch value: count = 4, documents = 2,
pagination = 1. -/
def flagsOf (o : ResponseFormatOptions) : Nat :=
  (if o.count then 4 else 0) + (if o.documents then 2 else 0) +
    (if o.pagination then 1 else 0)

/-- `createFormattedResponse` from the response helper: the bitmask-driven
dispatch over the eight flag combinations. -/
def createFormattedResponse (now : String) (data : List Js) (total page limit : Nat)
    (formatOptions : ResponseFormatOptions) (entityType dataKey : String) : Js :=
  match flagsOf formatOptions with
  | 7 =>
    createSuccessResponse now
      (entityType ++ " documents, count, and pagination retrieved successfully")
      (.obj [(dataKey, .arr data), ("count", .num total),
             ("pagination", paginationBlock total page limit)])
  | 6 =>
    createSuccessResponse now (entityType ++ " documents and count retrieved successfully")
      (.obj [(dataKey, .arr data), ("count", .num total)])
  | 5 =>
    createSuccessResponse now (entityType ++ " pagination and count retrieved successfully")
      (.obj [("count", .num total), ("pagination", paginationBlock total page limit)])
  | 4 => createCountResponse now total entityType
  | 2 => createDocumentsResponse now data total dataKey
  | 1 => createPaginationOnlyResponse now total page limit entityType
  | 3 => createStandardPaginatedResponse now data total page limit dataKey entityType
  | _ =>
    createSuccessResponse now
      (jsCapitalize entityType ++ " endpoint accessed successfully.")
      (.obj [("message", .str "No data returned. Please specify query parameters to retrieve data."),
             ("sampleParameters",
              .obj [("document", .str "Get simplified document format"),
                    ("pagination", .str "Get paginated results"),
                    ("count", .str "Get total count only")])])

/-- Which storage calls a run of executeFormattedQuery performed. -/
structure QueryTrace where
  ranFindMany : Bool
  ranCount : Bool
  deriving Repr, DecidableEq

/-- `executeFormattedQuery` from the response helper, with the storage
externalised: `fetchResult` is what findMany would return and
`countResult` what count would return.  Flags 0 runs nothing; flags 1, 4
and 5 run only the count; every flag combination containing documents
runs findMany and count together.  (The fields/select/include options only
shape the fetched rows, which are already a parameter here.)  Returns the
formatted response and the trace of storage calls. -/
def executeFormattedQuery (now : String) (fetchResult : List Js) (countResult : Nat)
    (page limit : Nat) (o : ResponseFormatOptions) (entityType dataKey : String) :
    Js × QueryTrace :=
  let flags := flagsOf o
  let run : List Js × Nat × QueryTrace :=
    if flags = 0 then ([], 0, ⟨false, false⟩)
    else if flags = 1 then ([], countResult, ⟨false, true⟩)
    else if flags = 4 then ([], countResult, ⟨false, true⟩)
    else if flags = 5 then ([], countResult, ⟨false, true⟩)
    else (fetchResult, countResult, ⟨true, true⟩)
  (createFormattedResponse now run.1 run.2.1 page limit o entityType dataKey,
   run.2.2)

/-- A JS number as the validators see it after Number(): none is NaN. -/
abbrev JSNum := Option ℚ

/-- Number.isInteger. -/
def jsIsInteger : JSNum → Bool
  | none => false
  | some q => q.den == 1

/-- The JS comparison n >= 1 (false on NaN). -/
def jsGe1 : JSNum → Bool
  | none => false
  | some q => decide (1 ≤ q)

/-- The JS comparison n < 1 (false on NaN). -/
def jsLt1 : JSNum → Bool
  | none => false
  | some q => decide (q < 1)

/-- isNaN. -/
def jsIsNaN : JSNum → Bool
  | none => true
  | some _ => false

/-- The ValidationResult record of the query-validation helper. -/
structure ValidationResult where
  isValid : Bool
  error : Option String := none
  statusCode : Option Nat := none
  field : Option String := none
  deriving Repr, DecidableEq

/-- `validatePagination` from the query-validation helper: accept when
both numbers are integers at least 1, otherwise report the page first and
the limit second, each as a field-tagged 400. -/
def validatePagination (page limit : JSNum) : ValidationResult :=
  if jsGe1 page && jsGe1 limit && jsIsInteger page && jsIsInteger limit then
    { isValid := true }
  else if !jsIsInteger page || jsLt1 page then
    { isValid := false, error := some "Invalid page number",
      statusCode := some 400, field := some "page" }
  else if !jsIsInteger limit || jsLt1 limit then
    { isValid := false, error := some "Invalid limit number",
      statusCode := some 400, field := some "limit" }
  else
    { isValid := true }

/-- Outcome of the page/limit portion of `validateQueryParams` (the older
validation helper): a failure carries buildErrorResponse(message, 400),
which has no field tag.  The message texts live in a constants file that
is not part of the sources; only their distinctness matters. -/
structure QueryParamsCheck where
  isValid : Bool
  errorMessage : Option String := none
  statusCode : Option Nat := none
  deriving Repr, DecidableEq

/-- The page and limit checks of `validateQueryParams`: reject only NaN or
numbers below 1 — no integrality test. -/
def validateQueryParamsPageLimit (page limit : JSNum) : QueryParamsCheck :=
  if jsIsNaN page || jsLt1 page then
    { isValid := false, errorMessage := some "INVALID_PAGE", statusCode := some 400 }
  else if jsIsNaN limit || jsLt1 limit then
    { isValid := false, errorMessage := some "INVALID_LIMIT", statusCode := some 400 }
  else
    { isValid := true }

/-- One entry of the errors array of an error response. -/
structure ErrDetail where
  field : String
  message : String
  deriving Repr, DecidableEq

/-- `buildErrorResponse` from error-handler.ts, minus the clock-dependent
timestamp, which is irrelevant to every claim comparing responses. -/
structure ErrorResponse where
  status : String := "error"
  message : String
  code : Nat
  errors : List ErrDetail
  deriving Repr, DecidableEq

/-- A stored user row as the login handler reads it. -/
structure StoredUser where
  email : String
  userName : String
  password : Option String
  deriving Repr, DecidableEq

/-- The findFirst lookup of the login handler: the first user whose email
or userName equals the identifier. -/
def findUserByIdentifier (db : List StoredUser) (identifier : String) : Option StoredUser :=
  db.find? (fun u => u.email == identifier || u.userName == identifier)

/-- The 401 body the login handler sends when no user is found or the
found user has no stored password. -/
def invalidIdentifierResponse : ErrorResponse :=
  { message := "Invalid credentials", code := 401,
    errors := [⟨"identifier", "Invalid username or email"⟩] }

/-- The 401 body the login handler sends when the password check fails. -/
def invalidPasswordResponse : ErrorResponse :=
  { message := "Invalid credentials", code := 401,
    errors := [⟨"password", "Invalid password"⟩] }

/-- Outcome of the credential phase of login: an error response, or the
authenticated user. -/
inductive LoginOutcome where
  | failure (resp : ErrorResponse)
  | success (user : StoredUser)
  deriving Repr, DecidableEq

/-- The credential phase of the login handler: find the user, reject when
absent or passwordless, then verify the password against the stored hash
(argon2.verify is externalised as the `verify` parameter). -/
def loginCredentialPhase (verify : String → String → Bool) (db : List StoredUser)
    (identifier password : String) : LoginOutcome :=
  match findUserByIdentifier db identifier with
  | none => .failure invalidIdentifierResponse
  | some user =>
    match user.password with
    | none => .failure invalidIdentifierResponse
    | some hash =>
      if verify hash password then .success user
      else .failure invalidPasswordResponse

/-- The authType values login accepts from the stored user metaData. -/
def allowedAuthTypes : List String := ["standard", "persistent", "temporary"]

/-- The authType normalization of the login handler: an absent or
unrecognised stored value falls back to standard. -/
def normalizeAuthType (rawAuthType : Option String) : String :=
  if allowedAuthTypes.contains (rawAuthType.getD "") then rawAuthType.getD ""
  else "standard"

/-- The jwt.sign expiry option derived from the normalized authType:
temporary signs with a one-hour expiry, standard with a one-day expiry,
persistent with no expiresIn option at all. -/
inductive TokenExpiry where
  | oneHour
  | oneDay
  | noExpiry
  deriving Repr, DecidableEq

/-- expiresIn selection of the login handler. -/
def expiryOf (authType : String) : TokenExpiry :=
  if authType == "temporary" then .oneHour
  else if authType == "standard" then .oneDay
  else .noExpiry

/-- A Permission row as the permission create handler reads and writes it
(rolePermissions payload kept abstract as a Js value). -/
structure PermissionRow where
  id : String
  accessPolicyId : String
  roleId : String
  rolePermissions : Js
  isDeleted : Bool

/-- The duplicate check of the permission create handler: the first
non-deleted row with the given access policy and role. -/
def findExistingPermission (db : List PermissionRow) (accessPolicyId roleId : String) :
    Option PermissionRow :=
  db.find? (fun row =>
    !row.isDeleted && row.accessPolicyId == accessPolicyId && row.roleId == roleId)

/-- Outcome of a permission create call: HTTP status, message and the row
returned.  The created-message text lives in the constants file outside
the sources; only the 200 versus 201 distinction and the row matter. -/
structure CreateOutcome where
  statusCode : Nat
  message : String
  permission : PermissionRow

/-- `create` of the permission controller with storage externalised: when
a non-deleted row for the (accessPolicyId, roleId) pair exists, return it
with 200 and leave the store untouched; otherwise insert a fresh
non-deleted row (id supplied by the store) and return it with 201. -/
def createPermission (db : List PermissionRow) (newId accessPolicyId roleId : String)
    (rolePermissions : Js) : CreateOutcome × List PermissionRow :=
  match findExistingPermission db accessPolicyId roleId with
  | some existing => (⟨200, "Existing permission found", existing⟩, db)
  | none =>
    let newRow : PermissionRow :=
      ⟨newId, accessPolicyId, roleId, rolePermissions, false⟩
    (⟨201, "PERMISSION.CREATED", newRow⟩, db ++ [newRow])

/-- The data object of a success response: the fields of its data
member. -/
def respData (resp : Js) : List (String × Js) :=
  match resp with
  | .obj fields =>
    match fields.find? (fun kv => kv.1 == "data") with
    | some (_, .obj inner) => inner
    | _ => []
  | _ => []

/-- Look a key up in a JS object field list. -/
def lookupKey (fields : List (String × Js)) (k : String) : Option Js :=
  (fields.find? (fun kv => kv.1 == k)).map (fun kv => kv.2)

/-- The placeholder data object of the all-flags-false response. -/
def placeholderData : Js :=
  .obj [("message", .str "No data returned. Please specify query parameters to retrieve data."),
        ("sampleParameters",
         .obj [("document", .str "Get simplified document format"),
               ("pagination", .str "Get paginated results"),
               ("count", .str "Get total count only")])]

/-- A dotted filter path is rejected by the compiler when some segment,
resolved against the schema the way buildCondition walks it, has no field
descriptor, or when the terminal segment is not scalar or enum. -/
def pathRejected (dm : Datamodel) (modelName : String) : List String → Bool
  | [] => false
  | [f] =>
    match getFieldMeta dm modelName f with
    | none => true
    | some meta => if meta.kind = .scalar ∨ meta.kind = .enum then false else true
  | f :: rest =>
    match getFieldMeta dm modelName f with
    | none => true
    | some meta =>
      pathRejected dm (if meta.kind = .object then meta.type else modelName) rest

/-- Number of live (non-deleted) Permission rows for one
(accessPolicyId, roleId) pair. -/
def pairCount (db : List PermissionRow) (accessPolicyId roleId : String) : Nat :=
  db.countP (fun row =>
    !row.isDeleted && row.accessPolicyId == accessPolicyId && row.roleId == roleId)

/-- The uniqueness invariant of the Permission table: at most one live row
per (accessPolicyId, roleId) pair. -/
def atMostOnePerPair (db : List PermissionRow) : Prop :=
  ∀ accessPolicyId roleId, pairCount db accessPolicyId roleId ≤ 1

/-- A one-user store for the login counterexample. -/
def exampleUserDb : List StoredUser := [⟨"a@b.c", "alice", some "pw"⟩]

/-- C6 counterexample: the claim maps every string other than the
literals true, 1, yes to false, but the code lowercases first, so the
literal TRUE coerces to true. -/
theorem parseValue_boolean_uppercase_counterexample :
    parseValue ⟨"active", .scalar, "Boolean", false, none⟩ "TRUE" = Js.boolVal true ∧
    "TRUE" ≠ "true" ∧ "TRUE" ≠ "1" ∧ "TRUE" ≠ "yes" := by
  refine ⟨rfl, by decide, by decide, by decide⟩

/-- C6 (amended): for every Boolean-typed leaf field, the coercion yields
true exactly when the lowercased value is true or yes, or the value is
exactly 1, and false for every other string. -/
theorem parseValue_boolean_coercion (meta : FieldMeta) (hty : meta.type = "Boolean")
    (val : String) :
    (parseValue meta val = Js.boolVal true ↔
      (jsToLower val = "true" ∨ jsToLower val = "yes" ∨ val = "1")) ∧
    (parseValue meta val = Js.boolVal false ↔
      ¬(jsToLower val = "true" ∨ jsToLower val = "yes" ∨ val = "1")) := by
  obtain ⟨n, k, ty, l, r⟩ := meta
  simp only at hty
  subst hty
  show (Js.boolVal _ = Js.boolVal true ↔ _) ∧ (Js.boolVal _ = Js.boolVal false ↔ _)
  constructor <;> simp [Js.boolVal.injEq] <;> tauto

/-- C6 witness: the amended coercion evaluated at the literal yes. -/
theorem parseValue_boolean_coercion_witness :
    (parseValue ⟨"active", .scalar, "Boolean", false, none⟩ "yes" = Js.boolVal true ↔
      (jsToLower "yes" = "true" ∨ jsToLower "yes" = "yes" ∨ "yes" = "1")) ∧
    (parseValue ⟨"active", .scalar, "Boolean", false, none⟩ "yes" = Js.boolVal false ↔
      ¬(jsToLower "yes" = "true" ∨ jsToLower "yes" = "yes" ∨ "yes" = "1")) :=
  parseValue_boolean_coercion ⟨"active", .scalar, "Boolean", false, none⟩ rfl "yes"

/-- C9: the token expiry derivation at login maps temporary to one hour,
standard to one day, persistent to no expiry, and normalizes any other or
absent stored authType to standard before signing. -/
theorem login_authType_expiry (raw : Option String) :
    (raw = some "temporary" →
      normalizeAuthType raw = "temporary" ∧ expiryOf (normalizeAuthType raw) = .oneHour) ∧
    (raw = some "standard" →
      normalizeAuthType raw = "standard" ∧ expiryOf (normalizeAuthType raw) = .oneDay) ∧
    (raw = some "persistent" →
      normalizeAuthType raw = "persistent" ∧ expiryOf (normalizeAuthType raw) = .noExpiry) ∧
    (raw = none →
      normalizeAuthType raw = "standard" ∧ expiryOf (normalizeAuthType raw) = .oneDay) ∧
    (∀ s, raw = some s → s ∉ allowedAuthTypes →
      normalizeAuthType raw = "standard" ∧ expiryOf (normalizeAuthType raw) = .oneDay) := by
  refine ⟨?_, ?_, ?_, ?_, ?_⟩
  · rintro rfl; exact ⟨rfl, rfl⟩
  · rintro rfl; exact ⟨rfl, rfl⟩
  · rintro rfl; exact ⟨rfl, rfl⟩
  · rintro rfl; exact ⟨rfl, rfl⟩
  · rintro s rfl hmem
    have hc : allowedAuthTypes.contains s = false := by
      simpa using hmem
    have hn : normalizeAuthType (some s) = "standard" := by
      unfold normalizeAuthType
      simp only [Option.getD_some, hc, Bool.false_eq_true, if_false]
    exact ⟨hn, by rw [hn]; rfl⟩

/-- C9 witness: an unrecognised stored authType is normalized to standard
and signed with the one-day expiry. -/
theorem login_authType_expiry_witness :
    normalizeAuthType (some "weird") = "standard" ∧
    expiryOf (normalizeAuthType (some "weird")) = .oneDay :=
  (login_authType_expiry (some "weird")).2.2.2.2 "weird" rfl (by decide)

/-- C8 counterexample: the unknown-identifier run and the wrong-password
run both return 401 with the message Invalid credentials, but their
per-field error details differ, so the two response bodies are
distinguishable. -/
theorem login_failure_distinguishable :
    loginCredentialPhase (fun h p => h == p) exampleUserDb "nobody" "pw" =
      .failure invalidIdentifierResponse ∧
    loginCredentialPhase (fun h p => h == p) exampleUserDb "a@b.c" "wrong" =
      .failure invalidPasswordResponse ∧
    invalidIdentifierResponse.code = 401 ∧
    invalidPasswordResponse.code = 401 ∧
    invalidIdentifierResponse.message = invalidPasswordResponse.message ∧
    invalidIdentifierResponse.errors ≠ invalidPasswordResponse.errors := by
  refine ⟨rfl, rfl, rfl, rfl, rfl, by decide⟩

/-- C8 (amended): a login naming an unknown identifier or a passwordless
user fails with the 401 identifier-tagged body, a wrong password fails
with the 401 password-tagged body; the status and top-level message agree
across the two failure modes but the per-field details differ, revealing
which factor failed. -/
theorem login_failure_responses (verify : String → String → Bool)
    (db : List StoredUser) (identifier password : String) :
    (findUserByIdentifier db identifier = none →
      loginCredentialPhase verify db identifier password = .failure invalidIdentifierResponse) ∧
    (∀ u, findUserByIdentifier db identifier = some u → u.password = none →
      loginCredentialPhase verify db identifier password = .failure invalidIdentifierResponse) ∧
    (∀ u hash, findUserByIdentifier db identifier = some u → u.password = some hash →
      verify hash password = false →
      loginCredentialPhase verify db identifier password = .failure invalidPasswordResponse) ∧
    (invalidIdentifierResponse.code = invalidPasswordResponse.code ∧
     invalidIdentifierResponse.message = invalidPasswordResponse.message ∧
     invalidIdentifierResponse.errors ≠ invalidPasswordResponse.errors) := by
  refine ⟨?_, ?_, ?_, rfl, rfl, by decide⟩
  · intro h
    simp [loginCredentialPhase, h]
  · intro u hu hp
    simp [loginCredentialPhase, hu, hp]
  · intro u hash hu hp hv
    simp [loginCredentialPhase, hu, hp, hv]

/-- C8 witness: the amended failure characterization applied to the
one-user store, discharging the wrong-password hypothesis. -/
theorem login_failure_responses_witness :
    loginCredentialPhase (fun h p => h == p) exampleUserDb "alice" "nope" =
      .failure invalidPasswordResponse :=
  (login_failure_responses (fun h p => h == p) exampleUserDb "alice" "nope").2.2.1
    ⟨"a@b.c", "alice", some "pw"⟩ "pw" rfl rfl (by decide)

/-- C2: at a non-terminal object-kind segment whose nested condition is
nonempty, the compiled condition wraps the nested condition according to
isList and the presence of relationName alone: list plus relationName
gives a some wrapper, non-list plus relationName the bare nested
condition, list without relationName some-is, non-list without
relationName is. -/
theorem buildCondition_object_wrapper (dm : Datamodel) (modelName f : String)
    (rest : List String) (value : Option String) (meta : FieldMeta)
    (nested : Condition)
    (hmeta : getFieldMeta dm modelName f = some meta)
    (hkind : meta.kind = .object)
    (hrest : rest ≠ [])
    (hnested : buildCondition dm meta.type rest value = some nested)
    (hne : nested ≠ []) :
    buildCondition dm modelName (f :: rest) value =
      some (if meta.isList then
              if meta.relationName.isSome then [(f, .obj [("some", .obj nested)])]
              else [(f, .obj [("some", .obj [("is", .obj nested)])])]
            else
              if meta.relationName.isSome then [(f, .obj nested)]
              else [(f, .obj [("is", .obj nested)])]) := by
  cases rest with
  | nil => exact absurd rfl hrest
  | cons r rs =>
    have step : buildCondition dm modelName (f :: r :: rs) value =
        (match buildCondition dm
            (if meta.kind = .object then meta.type else modelName) (r :: rs) value with
         | none => none
         | some nested =>
           if nested.isEmpty then some []
           else if meta.kind = .object then
             some (if meta.isList then
                     [(f, .obj [("some", if meta.relationName.isSome then .obj nested
                                         else .obj [("is", .obj nested)])])]
                   else
                     [(f, if meta.relationName.isSome then .obj nested
                          else .obj [("is", .obj nested)])])
           else some []) := by
      conv_lhs => rw [buildCondition.eq_def]
      simp only [hmeta]
    rw [step, if_pos hkind, hnested]
    have hemp : nested.isEmpty = false := by
      cases nested with
      | nil => exact absurd rfl hne
      | cons a l => rfl
    simp only [hemp, Bool.false_eq_true, if_false, hkind]
    cases meta.isList <;> cases meta.relationName.isSome <;> simp

/-- C2 witness: the wrapper equation at the to-many relation posts of the
example schema. -/
theorem buildCondition_object_wrapper_witness :
    buildCondition exampleDm "Parent" ("posts" :: ["title"]) (some "hi") =
      some (if true then
              if (Option.isSome (some "PostToParent")) then
                [("posts", Js.obj [("some", Js.obj [("title", Js.str "hi")])])]
              else [("posts", Js.obj [("some", Js.obj [("is", Js.obj [("title", Js.str "hi")])])])]
            else
              if (Option.isSome (some "PostToParent")) then
                [("posts", Js.obj [("title", Js.str "hi")])]
              else [("posts", Js.obj [("is", Js.obj [("title", Js.str "hi")])])]) :=
  buildCondition_object_wrapper exampleDm "Parent" "posts" ["title"] (some "hi")
    ⟨"posts", .object, "Post", true, some "PostToParent"⟩ [("title", Js.str "hi")]
    rfl rfl (fun h => List.noConfusion h) rfl (fun h => List.noConfusion h)

/-- A nonempty list has isEmpty false. -/
theorem isEmpty_false_of_ne_nil {α : Type} {l : List α} (h : l ≠ []) :
    l.isEmpty = false := by
  cases l with
  | nil => exact absurd rfl h
  | cons a t => rfl

/-- A list with isEmpty false is not nil. -/
theorem ne_nil_of_isEmpty_false {α : Type} {l : List α} (h : l.isEmpty = false) :
    l ≠ [] := by
  cases l with
  | nil => exact absurd h (by simp)
  | cons a t => exact fun hc => List.noConfusion hc

/-- mapM over Option succeeds with the pointwise results. -/
theorem mapM_eq_some_map {α β : Type} (g : α → Option β) (f : α → β) :
    ∀ vs : List α, (∀ v ∈ vs, g v = some (f v)) → vs.mapM g = some (vs.map f) := by
  intro vs
  induction vs with
  | nil => intro _; rfl
  | cons a l ih =>
    intro h
    rw [List.mapM_cons, h a (List.mem_cons_self a l),
      ih (fun v hv => h v (List.mem_cons_of_mem a hv))]
    rfl

/-- Every element a successful mapM over Option produces comes from some
input element. -/
theorem mapM_mem_exists {α β : Type} (g : α → Option β) :
    ∀ (vs : List α) (ys : List β), vs.mapM g = some ys →
      ∀ y ∈ ys, ∃ x ∈ vs, g x = some y := by
  intro vs
  induction vs with
  | nil =>
    intro ys h y hy
    simp only [List.mapM_nil, Option.pure_def, Option.some.injEq] at h
    rw [← h] at hy
    exact absurd hy (List.not_mem_nil y)
  | cons a l ih =>
    intro ys h y hy
    rw [List.mapM_cons] at h
    rcases Option.bind_eq_some.mp h with ⟨b, hb, h2⟩
    rcases Option.bind_eq_some.mp h2 with ⟨bs, hbs, h3⟩
    simp only [Option.pure_def, Option.some.injEq] at h3
    rw [← h3] at hy
    rcases List.mem_cons.mp hy with rfl | hmem
    · exact ⟨a, List.mem_cons_self a l, hb⟩
    · rcases ih bs hbs y hmem with ⟨x, hx, hgx⟩
      exact ⟨x, List.mem_cons_of_mem a hx, hgx⟩

/-- One loop iteration expressed through its group contribution. -/
theorem groupStep_eq_groupCondition (dm : Datamodel) (modelName : String)
    (conds : List Condition) (kvs : String × List (Option String)) :
    groupStep dm modelName conds kvs =
      (groupCondition dm modelName kvs).map (fun oc => conds ++ oc.toList) := by
  obtain ⟨k, vs⟩ := kvs
  match vs with
  | [v] =>
    simp only [groupStep, groupCondition]
    cases buildCondition dm modelName (jsSplit '.' k) v with
    | none => rfl
    | some condition =>
      by_cases he : condition.isEmpty = true <;> simp [he, Option.toList]
  | [] =>
    show some conds =
      (groupCondition dm modelName (k, ([] : List (Option String)))).map
        (fun oc => conds ++ oc.toList)
    rw [show groupCondition dm modelName (k, ([] : List (Option String))) =
      some none from rfl]
    simp [Option.toList]
  | v1 :: v2 :: vrest =>
    simp only [groupStep, groupCondition]
    cases (v1 :: v2 :: vrest).mapM (buildCondition dm modelName (jsSplit '.' k)) with
    | none => rfl
    | some cs =>
      by_cases he : (cs.filter (fun c => !c.isEmpty)).isEmpty = true <;>
        simp [he, Option.toList]

/-- The loop over the key groups appends, in group order, exactly the
groups whose contribution is not dropped; a thrown TypeError escapes. -/
theorem foldlM_groupStep_eq (dm : Datamodel) (modelName : String) :
    ∀ (groups : List (String × List (Option String))) (acc : List Condition),
      groups.foldlM (groupStep dm modelName) acc =
        (groups.mapM (groupCondition dm modelName)).map
          (fun ocs => acc ++ ocs.filterMap id) := by
  intro groups
  induction groups with
  | nil =>
    intro acc
    show some acc = ((([] : List (String × List (Option String))).mapM
      (groupCondition dm modelName)).map (fun ocs => acc ++ ocs.filterMap id))
    rw [show (([] : List (String × List (Option String))).mapM
      (groupCondition dm modelName)) = some [] from rfl]
    simp
  | cons g gs ih =>
    intro acc
    rw [List.foldlM_cons, groupStep_eq_groupCondition]
    cases hg : groupCondition dm modelName g with
    | none =>
      rw [List.mapM_cons, hg]
      rfl
    | some oc =>
      show gs.foldlM (groupStep dm modelName) (acc ++ oc.toList) =
        ((g :: gs).mapM (groupCondition dm modelName)).map
          (fun ocs => acc ++ ocs.filterMap id)
      rw [ih (acc ++ oc.toList), List.mapM_cons, hg]
      cases hgs : gs.mapM (groupCondition dm modelName) with
      | none => rfl
      | some ocs =>
        show some ((acc ++ oc.toList) ++ ocs.filterMap id) =
          some (acc ++ (oc :: ocs).filterMap id)
        rw [List.filterMap_cons]
        cases oc with
        | none => simp [Option.toList]
        | some c => simp [Option.toList, List.append_assoc]

/-- A group contribution that survives is never the empty condition. -/
theorem groupCondition_some_ne_nil (dm : Datamodel) (modelName : String)
    (kvs : String × List (Option String)) (c : Condition)
    (h : groupCondition dm modelName kvs = some (some c)) : c ≠ [] := by
  obtain ⟨k, vs⟩ := kvs
  match vs with
  | [v] =>
    simp only [groupCondition] at h
    cases hb : buildCondition dm modelName (jsSplit '.' k) v with
    | none => rw [hb] at h; exact Option.noConfusion h
    | some condition =>
      rw [hb] at h
      simp only [Option.some.injEq] at h
      by_cases he : condition.isEmpty = true
      · rw [if_pos he] at h
        exact Option.noConfusion h
      · rw [if_neg he] at h
        simp only [Option.some.injEq] at h
        rw [← h]
        exact ne_nil_of_isEmpty_false (Bool.not_eq_true _ ▸ he)
  | [] =>
    rw [show groupCondition dm modelName (k, ([] : List (Option String))) =
      some none from rfl] at h
    simp at h
  | v1 :: v2 :: vrest =>
    simp only [groupCondition] at h
    cases hb : (v1 :: v2 :: vrest).mapM (buildCondition dm modelName (jsSplit '.' k)) with
    | none => rw [hb] at h; exact Option.noConfusion h
    | some cs =>
      rw [hb] at h
      simp only [Option.some.injEq] at h
      by_cases he : (cs.filter (fun c => !c.isEmpty)).isEmpty = true
      · rw [if_pos he] at h
        exact Option.noConfusion h
      · rw [if_neg he] at h
        simp only [Option.some.injEq] at h
        rw [← h]
        exact fun hc => List.noConfusion hc

/-- Appending a value for its own key extends that group. -/
theorem groupsFind_insertGroup_same :
    ∀ (groups : List (String × List (Option String))) (k : String) (v : Option String),
      groupsFind (insertGroup groups k v) k =
        some ((groupsFind groups k).getD [] ++ [v]) := by
  intro groups
  induction groups with
  | nil => intro k v; simp [insertGroup, groupsFind]
  | cons g rest ih =>
    intro k v
    obtain ⟨k0, vs0⟩ := g
    by_cases h : (k0 == k) = true
    · simp [insertGroup, groupsFind, h]
    · simp only [insertGroup, h, Bool.false_eq_true, if_false]
      simp only [groupsFind, List.find?_cons, h]
      exact ih k v

/-- Appending a value for one key leaves the other groups unchanged. -/
theorem groupsFind_insertGroup_other :
    ∀ (groups : List (String × List (Option String))) (k k' : String) (v : Option String),
      k' ≠ k →
      groupsFind (insertGroup groups k v) k' = groupsFind groups k' := by
  intro groups
  induction groups with
  | nil =>
    intro k k' v h
    simp [insertGroup, groupsFind, beq_eq_false_iff_ne.mpr (fun hk => h hk.symm)]
  | cons g rest ih =>
    intro k k' v h
    obtain ⟨k0, vs0⟩ := g
    by_cases h0 : (k0 == k) = true
    · have hk0 : k0 = k := eq_of_beq h0
      subst hk0
      simp [insertGroup, groupsFind, beq_eq_false_iff_ne.mpr (fun hk => h hk.symm)]
    · simp only [insertGroup, h0, Bool.false_eq_true, if_false]
      by_cases h1 : (k0 == k') = true
      · simp [groupsFind, List.find?_cons, h1]
      · simp only [groupsFind, List.find?_cons, h1]
        exact ih k k' v h

/-- Folding the items into the groups appends every value whose key is k
to the k group, in item order. -/
theorem foldl_insertGroup_find_some :
    ∀ (items : List (String × Option String))
      (groups : List (String × List (Option String))) (k : String)
      (vs0 : List (Option String)),
      groupsFind groups k = some vs0 →
      groupsFind (items.foldl (fun gs kv => insertGroup gs kv.1 kv.2) groups) k =
        some (vs0 ++ valuesOfKey items k) := by
  intro items
  induction items with
  | nil => intro groups k vs0 h; simpa [valuesOfKey] using h
  | cons item items ih =>
    intro groups k vs0 h
    obtain ⟨k0, v0⟩ := item
    rw [List.foldl_cons]
    by_cases hk : (k0 == k) = true
    · have heq : k0 = k := eq_of_beq hk
      subst heq
      have h1 : groupsFind (insertGroup groups k0 v0) k0 = some (vs0 ++ [v0]) := by
        rw [groupsFind_insertGroup_same groups k0 v0, h]
        rfl
      rw [ih _ k0 (vs0 ++ [v0]) h1]
      simp [valuesOfKey, List.append_assoc]
    · have h1 : groupsFind (insertGroup groups k0 v0) k = some vs0 := by
        rw [groupsFind_insertGroup_other groups k0 k v0
          (fun he => absurd (beq_iff_eq.mpr he.symm) (fun hb => hk hb)), h]
      rw [ih _ k vs0 h1]
      simp [valuesOfKey, hk]

/-- Folding the items into groups that lack key k creates the k group
holding exactly the values of k, in item order, or no group at all when
k never occurs. -/
theorem foldl_insertGroup_find_none :
    ∀ (items : List (String × Option String))
      (groups : List (String × List (Option String))) (k : String),
      groupsFind groups k = none →
      groupsFind (items.foldl (fun gs kv => insertGroup gs kv.1 kv.2) groups) k =
        (if valuesOfKey items k = [] then none else some (valuesOfKey items k)) := by
  intro items
  induction items with
  | nil => intro groups k h; simpa [valuesOfKey] using h
  | cons item items ih =>
    intro groups k h
    obtain ⟨k0, v0⟩ := item
    rw [List.foldl_cons]
    by_cases hk : (k0 == k) = true
    · have heq : k0 = k := eq_of_beq hk
      subst heq
      have h1 : groupsFind (insertGroup groups k0 v0) k0 = some [v0] := by
        rw [groupsFind_insertGroup_same groups k0 v0, h]
        rfl
      rw [foldl_insertGroup_find_some items _ k0 [v0] h1]
      simp [valuesOfKey]
    · have h1 : groupsFind (insertGroup groups k0 v0) k = none := by
        rw [groupsFind_insertGroup_other groups k0 k v0
          (fun he => absurd (beq_iff_eq.mpr he.symm) (fun hb => hk hb)), h]
      rw [ih _ k h1]
      have hfilter : List.filter (fun kv => kv.1 == k) ((k0, v0) :: items) =
          List.filter (fun kv => kv.1 == k) items := by
        rw [List.filter_cons]
        simp [eq_false_of_ne_true hk]
      simp only [valuesOfKey]
      rw [hfilter]

/-- Every key of the grouped map came from the items or the seed. -/
theorem insertGroup_keys_subset :
    ∀ (groups : List (String × List (Option String))) (k x : String)
      (v : Option String),
      x ∈ (insertGroup groups k v).map Prod.fst →
      x ∈ groups.map Prod.fst ∨ x = k := by
  intro groups
  induction groups with
  | nil =>
    intro k x v h
    simp [insertGroup] at h
    exact Or.inr h
  | cons g rest ih =>
    intro k x v h
    obtain ⟨k0, vs0⟩ := g
    by_cases h0 : (k0 == k) = true
    · simp only [insertGroup, h0, if_pos, List.map_cons] at h
      exact Or.inl h
    · simp only [insertGroup, h0, Bool.false_eq_true, if_false, List.map_cons,
        List.mem_cons] at h
      rcases h with rfl | h
      · exact Or.inl (List.mem_cons_self _ _)
      · rcases ih k x v h with hin | rfl
        · exact Or.inl (List.mem_cons_of_mem _ hin)
        · exact Or.inr rfl

/-- Inserting a value keeps the group keys distinct. -/
theorem insertGroup_keys_nodup :
    ∀ (groups : List (String × List (Option String))) (k : String)
      (v : Option String),
      (groups.map Prod.fst).Nodup → ((insertGroup groups k v).map Prod.fst).Nodup := by
  intro groups
  induction groups with
  | nil => intro k v _; simp [insertGroup]
  | cons g rest ih =>
    intro k v h
    obtain ⟨k0, vs0⟩ := g
    rw [List.map_cons, List.nodup_cons] at h
    by_cases h0 : (k0 == k) = true
    · simp only [insertGroup, h0, if_pos, List.map_cons, List.nodup_cons]
      exact h
    · simp only [insertGroup, h0, Bool.false_eq_true, if_false, List.map_cons,
        List.nodup_cons]
      refine ⟨?_, ih k v h.2⟩
      intro hmem
      rcases insertGroup_keys_subset rest k k0 v hmem with hin | rfl
      · exact h.1 hin
      · exact absurd (beq_iff_eq.mpr rfl) (fun hb => h0 hb)

/-- The keys of groupItems are distinct: each key owns a single group. -/
theorem groupItems_keys_nodup_aux :
    ∀ (items : List (String × Option String))
      (groups : List (String × List (Option String))),
      (groups.map Prod.fst).Nodup →
      ((items.foldl (fun gs kv => insertGroup gs kv.1 kv.2) groups).map Prod.fst).Nodup := by
  intro items
  induction items with
  | nil => intro groups h; simpa using h
  | cons item items ih =>
    intro groups h
    rw [List.foldl_cons]
    exact ih _ (insertGroup_keys_nodup groups item.1 item.2 h)

/-- C3: the output is the in-order list of per-group contributions; every
key owns exactly one group holding all its values in item order; a group
of two or more values becomes a single OR with one condition per value; a
single-value group becomes that condition; and the scenario status filter
compiles to exactly the documented OR group. -/
theorem buildFilterConditions_grouping :
    (∀ dm modelName (groups : List (String × List (Option String))),
        conditionsOfGroups dm modelName groups =
          (groups.mapM (groupCondition dm modelName)).map
            (fun ocs => ocs.filterMap id)) ∧
    (∀ (items : List (String × Option String)) (k : String),
        groupsFind (groupItems items) k =
          (if valuesOfKey items k = [] then none else some (valuesOfKey items k))) ∧
    (∀ items : List (String × Option String),
        ((groupItems items).map Prod.fst).Nodup) ∧
    (∀ dm modelName (k : String) (vs : List (Option String))
        (f : Option String → Condition), 2 ≤ vs.length →
        (∀ v ∈ vs, buildCondition dm modelName (jsSplit '.' k) v = some (f v)) →
        (∀ v ∈ vs, f v ≠ []) →
        groupCondition dm modelName (k, vs) =
          some (some [("OR", Js.arr ((vs.map f).map Js.obj))])) ∧
    (∀ dm modelName (k : String) (v : Option String) (c : Condition),
        buildCondition dm modelName (jsSplit '.' k) v = some c → c ≠ [] →
        groupCondition dm modelName (k, [v]) = some (some c)) ∧
    buildFilterConditions exampleDm "Thing" (some "status:active,status:pending") =
      some [[("OR", .arr [.obj [("status", .str "active")],
                          .obj [("status", .str "pending")]])]] := by
  refine ⟨?_, ?_, ?_, ?_, ?_, rfl⟩
  · intro dm modelName groups
    rw [conditionsOfGroups, foldlM_groupStep_eq]
    simp
  · intro items k
    exact foldl_insertGroup_find_none items [] k rfl
  · intro items
    exact groupItems_keys_nodup_aux items [] (by simp)
  · intro dm modelName k vs f hlen hsome hne
    match vs, hlen with
    | v1 :: v2 :: vrest, _ =>
      have hmapM : (v1 :: v2 :: vrest).mapM (buildCondition dm modelName (jsSplit '.' k)) =
          some ((v1 :: v2 :: vrest).map f) :=
        mapM_eq_some_map _ f _ hsome
      have hfilter : ((v1 :: v2 :: vrest).map f).filter (fun c => !c.isEmpty) =
          (v1 :: v2 :: vrest).map f := by
        rw [List.filter_eq_self]
        intro c hc
        rcases List.mem_map.mp hc with ⟨v, hv, rfl⟩
        simpa using isEmpty_false_of_ne_nil (hne v hv)
      simp only [groupCondition, hmapM, hfilter]
      rfl
  · intro dm modelName k v c hb hne
    simp [groupCondition, hb, isEmpty_false_of_ne_nil hne]

/-- C3 witness: a single-value group compiles to its condition over the
example schema. -/
theorem buildFilterConditions_grouping_witness :
    groupCondition exampleDm "Thing" ("status", [some "active"]) =
      some (some [("status", Js.str "active")]) :=
  buildFilterConditions_grouping.2.2.2.2.1 exampleDm "Thing" "status" (some "active")
    [("status", Js.str "active")] rfl (fun h => List.noConfusion h)

/-- C4 counterexample: a filter item with no colon on a Boolean-typed
field makes parseValue call toLowerCase on undefined, so the compiler
raises a TypeError instead of returning: the claim that no input ever
causes an error fails. -/
theorem filter_compiler_throws_on_valueless_boolean :
    buildFilterConditions exampleDm "Thing" (some "active") = none ∧
    buildConditionThrows exampleDm "Thing" ["active"] none = true := ⟨rfl, rfl⟩

/-- parseValueOpt faults exactly on a missing value for a Boolean-typed
field. -/
theorem parseValueOpt_eq_none_iff (meta : FieldMeta) (value : Option String) :
    parseValueOpt meta value = none ↔
      (value.isNone && (meta.type == "Boolean")) = true := by
  cases value with
  | some v => simp [parseValueOpt]
  | none =>
    simp only [parseValueOpt, Option.isNone_none, Bool.true_and]
    by_cases hnum : (meta.type == "Int" || meta.type == "BigInt" ||
        meta.type == "Float" || meta.type == "Decimal") = true
    · have hb : (meta.type == "Boolean") = false := by
        simp only [Bool.or_eq_true] at hnum
        rcases hnum with ((h | h) | h) | h <;> simp [eq_of_beq h]
      simp [hnum, hb]
    · simp only [hnum, Bool.false_eq_true, if_false]
      by_cases hb : (meta.type == "Boolean") = true
      · simp [hb]
      · by_cases hd : (meta.type == "DateTime") = true <;> simp [hb, hd]

/-- C4 (amended): path-driven failures are silent — an unresolvable
segment or a non-scalar/enum terminal compiles to the empty condition and
the returned list never contains an empty condition — but the compiler
does not return normally on every input: it raises exactly when the
terminal segment resolves to a Boolean-typed scalar or enum field while
the item carries no value. -/
theorem filter_compiler_silent_drop :
    (∀ dm modelName path value, pathRejected dm modelName path = true →
        buildCondition dm modelName path value = some []) ∧
    (∀ dm modelName s out, buildFilterConditions dm modelName (some s) = some out →
        ∀ c ∈ out, c ≠ []) ∧
    (∀ dm modelName path value,
        buildCondition dm modelName path value = none ↔
          buildConditionThrows dm modelName path value = true) := by
  refine ⟨?_, ?_, ?_⟩
  · intro dm modelName path value h
    induction path generalizing modelName with
    | nil => simp [pathRejected] at h
    | cons f rest ih =>
      cases hm : getFieldMeta dm modelName f with
      | none =>
        cases rest <;> simp [buildCondition, hm]
      | some meta =>
        cases rest with
        | nil =>
          have hk : ¬(meta.kind = .scalar ∨ meta.kind = .enum) := by
            simp only [pathRejected, hm] at h
            by_contra hcontra
            rw [if_pos hcontra] at h
            exact Bool.false_ne_true h
          simp [buildCondition, hm, hk]
        | cons r rs =>
          have h' : pathRejected dm (if meta.kind = .object then meta.type else modelName)
              (r :: rs) = true := by
            simpa [pathRejected, hm] using h
          have hnest := ih _ h'
          conv_lhs => rw [buildCondition.eq_def]
          simp [hm, hnest]
  · intro dm modelName s out hout c hc
    simp only [buildFilterConditions] at hout
    by_cases hs : s = ""
    · rw [if_pos hs] at hout
      simp only [Option.some.injEq] at hout
      rw [← hout] at hc
      exact absurd hc (List.not_mem_nil c)
    · rw [if_neg hs] at hout
      rw [conditionsOfGroups, foldlM_groupStep_eq] at hout
      rcases Option.map_eq_some'.mp hout with ⟨ocs, hocs, hout2⟩
      rw [← hout2] at hc
      simp only [List.nil_append] at hc
      rcases List.mem_filterMap.mp hc with ⟨oc, hocmem, hid⟩
      rcases mapM_mem_exists _ _ ocs hocs oc hocmem with ⟨kvs, _, hkvs⟩
      cases oc with
      | none => exact Option.noConfusion hid
      | some c2 =>
        simp only [id, Option.some.injEq] at hid
        rw [← hid]
        exact groupCondition_some_ne_nil dm modelName kvs c2 hkvs
  · intro dm modelName path value
    induction path generalizing modelName with
    | nil => simp [buildCondition, buildConditionThrows]
    | cons f rest ih =>
      cases hm : getFieldMeta dm modelName f with
      | none =>
        cases rest <;> simp [buildCondition, buildConditionThrows, hm]
      | some meta =>
        cases rest with
        | nil =>
          by_cases hk : meta.kind = .scalar ∨ meta.kind = .enum
          · simp only [buildCondition, buildConditionThrows, hm, if_pos hk]
            cases hp : parseValueOpt meta value with
            | none =>
              simp only [true_iff]
              exact (parseValueOpt_eq_none_iff meta value).mp hp
            | some pv =>
              simp only [iff_false_intro]
              constructor
              · intro hcontra; exact Option.noConfusion hcontra
              · intro ht
                have := (parseValueOpt_eq_none_iff meta value).mpr ht
                rw [hp] at this
                exact Option.noConfusion this
          · simp [buildCondition, buildConditionThrows, hm, hk]
        | cons r rs =>
          have step : buildCondition dm modelName (f :: r :: rs) value =
              (match buildCondition dm
                  (if meta.kind = .object then meta.type else modelName) (r :: rs) value with
               | none => none
               | some nested =>
                 if nested.isEmpty then some []
                 else if meta.kind = .object then
                   some (if meta.isList then
                           [(f, .obj [("some", if meta.relationName.isSome then .obj nested
                                               else .obj [("is", .obj nested)])])]
                         else
                           [(f, if meta.relationName.isSome then .obj nested
                                else .obj [("is", .obj nested)])])
                 else some []) := by
            conv_lhs => rw [buildCondition.eq_def]
            simp only [hm]
          have hthrows : buildConditionThrows dm modelName (f :: r :: rs) value =
              buildConditionThrows dm
                (if meta.kind = .object then meta.type else modelName) (r :: rs) value := by
            conv_lhs => rw [buildConditionThrows.eq_def]
            simp only [hm]
          rw [step, hthrows, ← ih]
          cases hrec : buildCondition dm
              (if meta.kind = .object then meta.type else modelName) (r :: rs) value with
          | none => simp
          | some nested =>
            simp only [iff_false_intro]
            constructor
            · intro hcontra
              by_cases he : nested.isEmpty = true
              · rw [if_pos he] at hcontra
                exact Option.noConfusion hcontra
              · rw [if_neg he] at hcontra
                by_cases ho : meta.kind = .object
                · rw [if_pos ho] at hcontra
                  exact Option.noConfusion hcontra
                · rw [if_neg ho] at hcontra
                  exact Option.noConfusion hcontra
            · intro hcontra
              exact Option.noConfusion hcontra

/-- C4 witness: an unresolvable one-segment path compiles to the empty
condition. -/
theorem filter_compiler_silent_drop_witness :
    buildCondition exampleDm "Thing" ["nosuch"] (some "x") = some [] :=
  filter_compiler_silent_drop.1 exampleDm "Thing" ["nosuch"] (some "x") rfl

/-- Setting a key makes it retrievable. -/
theorem getKey_setKey_same (m : SelMap) (k : String) (v : Sel) :
    getKey (setKey m k v) k = some v := by
  induction m with
  | nil => simp [setKey, getKey]
  | cons kv rest ih =>
    obtain ⟨k', v'⟩ := kv
    by_cases h : (k' == k) = true
    · simp [setKey, getKey, h]
    · simp only [setKey, getKey, h, Bool.false_eq_true, if_false]
      exact ih

/-- Setting a key leaves other keys unchanged. -/
theorem getKey_setKey_other (m : SelMap) (k k' : String) (v : Sel) (h : k' ≠ k) :
    getKey (setKey m k v) k' = getKey m k' := by
  induction m with
  | nil =>
    simp [setKey, getKey, beq_eq_false_iff_ne.mpr (fun hk => h hk.symm)]
  | cons kv rest ih =>
    obtain ⟨k0, v0⟩ := kv
    by_cases h0 : (k0 == k) = true
    · have hk0 : k0 = k := eq_of_beq h0
      subst hk0
      simp [setKey, getKey, beq_eq_false_iff_ne.mpr (fun hk => h hk.symm)]
    · simp only [setKey, getKey, h0, Bool.false_eq_true, if_false]
      by_cases h1 : (k0 == k') = true
      · simp [getKey, h1]
      · simp only [getKey, h1, Bool.false_eq_true, if_false]
        exact ih

/-- Inserting one dotted entry preserves the id leaf at the top level. -/
theorem insertSelection_preserves_id (parts : List String) (m m' : SelMap)
    (hid : getKey m "id" = some .leaf)
    (h : insertSelection m parts = some m') :
    getKey m' "id" = some .leaf := by
  match parts with
  | [] =>
    simp only [insertSelection, Option.some.injEq] at h
    rw [← h]; exact hid
  | [last] =>
    simp only [insertSelection, Option.some.injEq] at h
    rw [← h]
    by_cases hl : last = "id"
    · subst hl; rw [getKey_setKey_same]
    · rw [getKey_setKey_other _ _ _ _ (fun hk => hl hk.symm)]; exact hid
  | p :: q :: qs =>
    simp only [insertSelection] at h
    by_cases hj : jsonFields.contains p = true
    · rw [if_pos hj] at h
      simp only [Option.some.injEq] at h
      rw [← h]
      by_cases hp : p = "id"
      · subst hp; rw [getKey_setKey_same]
      · rw [getKey_setKey_other _ _ _ _ (fun hk => hp hk.symm)]; exact hid
    · rw [if_neg hj] at h
      cases hg : getKey m p with
      | none =>
        rw [hg] at h
        rcases Option.map_eq_some'.mp h with ⟨sub, _, hm'⟩
        rw [← hm']
        have hp : p ≠ "id" := fun hk => by rw [hk, hid] at hg; exact Option.noConfusion hg
        rw [getKey_setKey_other _ _ _ _ (fun hk => hp hk.symm)]; exact hid
      | some sel =>
        rw [hg] at h
        cases sel with
        | leaf => exact Option.noConfusion h
        | node sub =>
          rcases Option.map_eq_some'.mp h with ⟨sub', _, hm'⟩
          rw [← hm']
          have hp : p ≠ "id" := fun hk => by
            rw [hk, hid] at hg
            simp at hg
          rw [getKey_setKey_other _ _ _ _ (fun hk => hp hk.symm)]; exact hid

/-- The entry fold of buildFieldSelections preserves the id leaf. -/
theorem foldl_entries_preserves_id (entries : List String) :
    ∀ (m0 : SelMap), getKey m0 "id" = some .leaf →
    ∀ m, entries.foldlM selectionStep m0 = some m →
      getKey m "id" = some .leaf := by
  induction entries with
  | nil =>
    intro m0 h0 m hm
    simp only [List.foldlM_nil, Option.pure_def, Option.some.injEq] at hm
    rw [← hm]; exact h0
  | cons e es ih =>
    intro m0 h0 m hm
    rw [List.foldlM_cons] at hm
    rcases Option.bind_eq_some.mp hm with ⟨m1, h1, h2⟩
    by_cases he : (jsTrim e == "") = true
    · simp only [selectionStep, he, if_pos, Option.some.injEq] at h1
      exact ih m0 h0 m (h1 ▸ h2)
    · by_cases hv : (!isValidFieldName (jsTrim e)) = true
      · simp only [selectionStep, he, Bool.false_eq_true, if_false, hv, if_pos,
          Option.some.injEq] at h1
        exact ih m0 h0 m (h1 ▸ h2)
      · simp only [selectionStep, he, Bool.false_eq_true, if_false, hv, if_false] at h1
        exact ih m1 (insertSelection_preserves_id _ m0 m1 h0 h1) m h2

/-- Inserting a dotted entry into the empty map builds exactly the entry
tree: nested select nodes for non-composite non-final segments, a leaf for
the final segment, truncation at the first JSON composite. -/
theorem insertSelection_empty_entryMap (rest : List String) :
    ∀ p : String, insertSelection [] (p :: rest) = some (entryMap (p :: rest)) := by
  induction rest with
  | nil =>
    intro p
    simp [insertSelection, setKey, entryMap]
  | cons q qs ih =>
    intro p
    by_cases hj : jsonFields.contains p = true
    · have hm : p ∈ jsonFields := by simpa using hj
      simp only [insertSelection]
      rw [if_pos hj]
      simp [setKey, entryMap, hm]
    · have hm : p ∉ jsonFields := by simpa using hj
      simp only [insertSelection, hj, Bool.false_eq_true, if_false, getKey]
      rw [ih q]
      simp [setKey, entryMap, hm]

/-- C5 counterexample: a nested selection through the JSON composite
contactInfo does not become a select wrapper — the whole composite is
selected as a leaf. -/
theorem buildFieldSelections_json_truncates :
    buildFieldSelections "contactInfo.phones" =
      some [("id", .leaf), ("contactInfo", .leaf)] ∧
    some [("id", Sel.leaf), ("contactInfo", Sel.leaf)] ≠
      some [("id", Sel.leaf), ("contactInfo", Sel.node [("phones", Sel.leaf)])] := by
  constructor
  · rfl
  · intro h
    simp at h

/-- C5 (amended): the scenario string compiles to the documented tree in
both builders; id is always a leaf of the result; an entry failing the
identifier pattern (or empty after trimming) is skipped, leaving the tree
unchanged; and a dotted entry with a fresh leading segment inserts the
entry tree, in which every non-final non-composite segment becomes a
nested select wrapper, the final segment a leaf, and the first JSON
composite at a non-final position truncates the remainder with the whole
composite selected as a leaf. -/
theorem field_selection_amended :
    buildFieldSelections "a,b.c,b.d" =
      some [("id", .leaf), ("a", .leaf), ("b", .node [("c", .leaf), ("d", .leaf)])] ∧
    getNestedFieldsCore "a,b.c,b.d" =
      some [("id", .leaf), ("a", .leaf), ("b", .node [("c", .leaf), ("d", .leaf)])] ∧
    (∀ s m, buildFieldSelections s = some m → getKey m "id" = some .leaf) ∧
    (∀ (m : SelMap) (fieldRaw : String),
        isValidFieldName (jsTrim fieldRaw) = false →
        selectionStep m fieldRaw = some m) ∧
    (∀ (m : SelMap) (p : String) (rest : List String), getKey m p = none →
        insertSelection m (p :: rest) = some (setKey m p (entrySel p rest))) := by
  refine ⟨rfl, rfl, ?_, ?_, ?_⟩
  · intro s m h
    simp only [buildFieldSelections] at h
    by_cases hs : (jsTrim s == "") = true
    · rw [if_pos hs] at h
      simp only [Option.some.injEq] at h
      rw [← h]; rfl
    · rw [if_neg hs] at h
      exact foldl_entries_preserves_id (jsSplit ',' s) [("id", .leaf)] rfl m h
  · intro m fieldRaw h
    by_cases he : (jsTrim fieldRaw == "") = true
    · simp [selectionStep, he]
    · simp [selectionStep, he, h]
  · intro m p rest hfresh
    cases rest with
    | nil => simp [insertSelection, entrySel]
    | cons q qs =>
      by_cases hj : jsonFields.contains p = true
      · have hm : p ∈ jsonFields := by simpa using hj
        simp only [insertSelection]
        rw [if_pos hj]
        simp [entrySel, hm]
      · have hm : p ∉ jsonFields := by simpa using hj
        simp only [insertSelection, hj, Bool.false_eq_true, if_false, hfresh]
        rw [insertSelection_empty_entryMap qs q]
        simp [entrySel, hm]

/-- C5 witness: a fresh entry whose second segment is the JSON composite
contactInfo truncates below the first wrapper. -/
theorem field_selection_amended_witness :
    insertSelection [("id", Sel.leaf)] ("a" :: ["contactInfo", "phones"]) =
      some (setKey [("id", Sel.leaf)] "a" (entrySel "a" ["contactInfo", "phones"])) :=
  field_selection_amended.2.2.2.2 [("id", Sel.leaf)] "a" ["contactInfo", "phones"] rfl

/-- Branch normal form of validatePagination: the page check decides
first, then the limit check. -/
theorem validatePagination_eq (page limit : JSNum) :
    validatePagination page limit =
      if (jsIsInteger page && jsGe1 page) = true then
        if (jsIsInteger limit && jsGe1 limit) = true then { isValid := true }
        else { isValid := false, error := some "Invalid limit number",
               statusCode := some 400, field := some "limit" }
      else { isValid := false, error := some "Invalid page number",
             statusCode := some 400, field := some "page" } := by
  cases page with
  | none => simp [validatePagination, jsIsInteger, jsGe1, jsLt1]
  | some q =>
    by_cases hi : (q.den == 1) = true
    · by_cases hg : decide (1 ≤ q) = true
      · have hlt : decide (q < 1) = false := decide_eq_false (not_lt.mpr (of_decide_eq_true hg))
        cases limit with
        | none => simp [validatePagination, jsIsInteger, jsGe1, jsLt1, hi, hg, hlt]
        | some p =>
          by_cases hi2 : (p.den == 1) = true
          · by_cases hg2 : decide (1 ≤ p) = true
            · have hlt2 : decide (p < 1) = false :=
                decide_eq_false (not_lt.mpr (of_decide_eq_true hg2))
              simp [validatePagination, jsIsInteger, jsGe1, jsLt1, hi, hg, hlt, hi2, hg2, hlt2]
            · have hlt2 : decide (p < 1) = true :=
                decide_eq_true (not_le.mp (of_decide_eq_false (Bool.not_eq_true _ ▸ eq_false_of_ne_true hg2)))
              simp [validatePagination, jsIsInteger, jsGe1, jsLt1, hi, hg, hlt, hi2, hg2, hlt2]
          · simp [validatePagination, jsIsInteger, jsGe1, jsLt1, hi, hg, hlt, hi2]
      · have hlt : decide (q < 1) = true := decide_eq_true (not_le.mp (of_decide_eq_false (Bool.not_eq_true _ ▸ eq_false_of_ne_true hg)))
        simp [validatePagination, jsIsInteger, jsGe1, jsLt1, hi, hg, hlt]
    · simp [validatePagination, jsIsInteger, jsGe1, jsLt1, hi]

/-- C7 counterexample: the older validator accepts the fractional page
value 3/2, which is not an integer, while the claim requires every
fractional page to be rejected. -/
theorem validateQueryParams_fractional_accepted :
    (validateQueryParamsPageLimit (some ((3 : ℚ)/2)) (some 10)).isValid = true ∧
    jsIsInteger (some ((3 : ℚ)/2)) = false := by
  constructor
  · have h1 : (jsIsNaN (some ((3 : ℚ)/2)) || jsLt1 (some ((3 : ℚ)/2))) = false := by
      norm_num [jsIsNaN, jsLt1]
    have h2 : (jsIsNaN (some (10 : ℚ)) || jsLt1 (some (10 : ℚ))) = false := by
      norm_num [jsIsNaN, jsLt1]
    simp [validateQueryParamsPageLimit, h1, h2]
  · norm_num [jsIsInteger]

/-- C7 (amended): validatePagination accepts exactly the pairs of
integer values at least 1 and otherwise fails with a 400 naming page
first and limit second; the older validateQueryParams page/limit check
only rejects NaN or values below 1, accepting fractional values. -/
theorem pagination_validation_characterization (page limit : JSNum) :
    ((validatePagination page limit).isValid = true ↔
      (jsIsInteger page && jsGe1 page && jsIsInteger limit && jsGe1 limit) = true) ∧
    ((jsIsInteger page && jsGe1 page) = false →
      validatePagination page limit =
        { isValid := false, error := some "Invalid page number",
          statusCode := some 400, field := some "page" }) ∧
    ((jsIsInteger page && jsGe1 page) = true →
      (jsIsInteger limit && jsGe1 limit) = false →
      validatePagination page limit =
        { isValid := false, error := some "Invalid limit number",
          statusCode := some 400, field := some "limit" }) ∧
    ((jsIsNaN page || jsLt1 page) = false → (jsIsNaN limit || jsLt1 limit) = false →
      (validateQueryParamsPageLimit page limit).isValid = true) := by
  refine ⟨?_, ?_, ?_, ?_⟩
  · rw [validatePagination_eq]
    by_cases hp : (jsIsInteger page && jsGe1 page) = true <;>
      by_cases hl : (jsIsInteger limit && jsGe1 limit) = true <;>
        simp [hp, hl]
  · intro hbad
    rw [validatePagination_eq, if_neg (by rw [hbad]; exact Bool.noConfusion)]
  · intro hgood hbad
    rw [validatePagination_eq, if_pos hgood, if_neg (by rw [hbad]; exact Bool.noConfusion)]
  · intro h1 h2
    simp [validateQueryParamsPageLimit, h1, h2]

/-- C7 witness: the characterization applied at page 2, limit 10/3 —
the fractional limit is reported with a limit-tagged 400. -/
theorem pagination_validation_characterization_witness :
    validatePagination (some (2 : ℚ)) (some ((10 : ℚ)/3)) =
      { isValid := false, error := some "Invalid limit number",
        statusCode := some 400, field := some "limit" } :=
  (pagination_validation_characterization (some (2 : ℚ)) (some ((10 : ℚ)/3))).2.2.1
    (by norm_num [jsIsInteger, jsGe1]) (by norm_num [jsIsInteger])

/-- find? skips a prefix in which nothing matches. -/
theorem find?_append_of_none {α : Type} (p : α → Bool) (l1 l2 : List α)
    (h : l1.find? p = none) : (l1 ++ l2).find? p = l2.find? p := by
  induction l1 with
  | nil => simp
  | cons a t ih =>
    cases hp : p a with
    | true => simp [List.find?_cons, hp] at h
    | false =>
      simp only [List.find?_cons, hp] at h
      simp only [List.cons_append, List.find?_cons, hp]
      exact ih h

/-- C10: creating a Permission whose (accessPolicyId, roleId) pair
already has a live row performs no write and returns that row with 200;
create preserves the at-most-one-live-row-per-pair invariant; and an
immediate retry of the same create performs no further write. -/
theorem createPermission_idempotent (db : List PermissionRow)
    (newId accessPolicyId roleId : String) (rp : Js) :
    (∀ row, findExistingPermission db accessPolicyId roleId = some row →
      createPermission db newId accessPolicyId roleId rp =
        (⟨200, "Existing permission found", row⟩, db)) ∧
    (atMostOnePerPair db →
      atMostOnePerPair (createPermission db newId accessPolicyId roleId rp).2) ∧
    (∀ newId2,
      (createPermission (createPermission db newId accessPolicyId roleId rp).2
          newId2 accessPolicyId roleId rp).2 =
        (createPermission db newId accessPolicyId roleId rp).2) := by
  refine ⟨?_, ?_, ?_⟩
  · intro row h
    simp [createPermission, h]
  · intro hinv
    cases hfind : findExistingPermission db accessPolicyId roleId with
    | some row => simpa [createPermission, hfind] using hinv
    | none =>
      simp only [createPermission, hfind]
      intro ap r
      have hnone := List.find?_eq_none.mp hfind
      rw [pairCount, List.countP_append]
      by_cases hmatch :
          (!(false : Bool) && (accessPolicyId == ap) && (roleId == r)) = true
      · have hmatch' : (accessPolicyId == ap) = true ∧ (roleId == r) = true := by
          simp only [Bool.and_eq_true] at hmatch
          exact ⟨hmatch.1.2, hmatch.2⟩
        have hap : accessPolicyId = ap := eq_of_beq hmatch'.1
        have hr : roleId = r := eq_of_beq hmatch'.2
        subst hap; subst hr
        have hzero : List.countP (fun row =>
            !row.isDeleted && row.accessPolicyId == accessPolicyId &&
              row.roleId == roleId) db = 0 := by
          rw [List.countP_eq_zero]
          exact fun a ha hpa => hnone a ha hpa
        rw [hzero]
        simp [List.countP_cons]
      · have hone : List.countP (fun row =>
            !row.isDeleted && row.accessPolicyId == ap && row.roleId == r)
            [(⟨newId, accessPolicyId, roleId, rp, false⟩ : PermissionRow)] = 0 := by
          simp only [List.countP_cons, List.countP_nil]
          rw [if_neg hmatch]
        rw [hone]
        simpa [pairCount] using hinv ap r
  · intro newId2
    cases hfind : findExistingPermission db accessPolicyId roleId with
    | some row => simp [createPermission, hfind]
    | none =>
      simp only [createPermission, hfind]
      have hfind2 : findExistingPermission
          (db ++ [⟨newId, accessPolicyId, roleId, rp, false⟩])
          accessPolicyId roleId = some ⟨newId, accessPolicyId, roleId, rp, false⟩ := by
        rw [findExistingPermission,
          find?_append_of_none _ db _ hfind]
        simp [List.find?_cons]
      simp [createPermission, hfind2]

/-- C10 witness: a create over a store already holding the pair returns
the stored row with 200 and leaves the store unchanged. -/
theorem createPermission_idempotent_witness :
    createPermission [⟨"p1", "ap1", "r1", Js.jsNull, false⟩] "p2" "ap1" "r1" Js.jsNull =
      (⟨200, "Existing permission found", ⟨"p1", "ap1", "r1", Js.jsNull, false⟩⟩,
        [⟨"p1", "ap1", "r1", Js.jsNull, false⟩]) :=
  (createPermission_idempotent [⟨"p1", "ap1", "r1", Js.jsNull, false⟩]
    "p2" "ap1" "r1" Js.jsNull).1 ⟨"p1", "ap1", "r1", Js.jsNull, false⟩ rfl

/-- C1: over all eight flag combinations, the records array appears under
the data key exactly when the documents flag is set, the pagination block
appears exactly when the pagination flag is set, all flags false yields
the placeholder accessed-successfully response, findMany runs exactly
when the documents flag is set (so a count-only call runs no findMany),
and the count query runs exactly when some flag is set. -/
theorem executeFormattedQuery_shape
    (now : String) (fetch : List Js) (cnt page limit : Nat)
    (o : ResponseFormatOptions) (entityType dataKey : String)
    (h1 : dataKey ≠ "count") (h2 : dataKey ≠ "pagination")
    (h3 : dataKey ≠ "message") (h4 : dataKey ≠ "sampleParameters") :
    (lookupKey (respData
        (executeFormattedQuery now fetch cnt page limit o entityType dataKey).1) dataKey =
      if o.documents then some (Js.arr fetch) else none) ∧
    (lookupKey (respData
        (executeFormattedQuery now fetch cnt page limit o entityType dataKey).1) "pagination" =
      if o.pagination then some (paginationBlock cnt page limit) else none) ∧
    (o = ⟨false, false, false⟩ →
      (executeFormattedQuery now fetch cnt page limit o entityType dataKey).1 =
        createSuccessResponse now
          (jsCapitalize entityType ++ " endpoint accessed successfully.") placeholderData) ∧
    ((executeFormattedQuery now fetch cnt page limit o entityType dataKey).2.ranFindMany =
      o.documents) ∧
    ((executeFormattedQuery now fetch cnt page limit o entityType dataKey).2.ranCount =
      (o.documents || o.pagination || o.count)) := by
  have hc1 : (dataKey == "count") = false := beq_eq_false_iff_ne.mpr h1
  have hc1' : ("count" == dataKey) = false := beq_eq_false_iff_ne.mpr (Ne.symm h1)
  have hc2 : (dataKey == "pagination") = false := beq_eq_false_iff_ne.mpr h2
  have hc2' : ("pagination" == dataKey) = false := beq_eq_false_iff_ne.mpr (Ne.symm h2)
  have hc3' : ("message" == dataKey) = false := beq_eq_false_iff_ne.mpr (Ne.symm h3)
  have hc4' : ("sampleParameters" == dataKey) = false :=
    beq_eq_false_iff_ne.mpr (Ne.symm h4)
  obtain ⟨d, p, c⟩ := o
  cases d <;> cases p <;> cases c <;>
    simp [executeFormattedQuery, flagsOf, createFormattedResponse,
      createSuccessResponse, createDocumentsResponse, createCountResponse,
      createStandardPaginatedResponse, createPaginationOnlyResponse,
      respData, lookupKey, placeholderData, List.find?,
      hc1, hc1', hc2, hc2', hc3', hc4']

/-- C1 witness: the shape law at the all-flags-set corner with a concrete
data key. -/
theorem executeFormattedQuery_shape_witness :
    (lookupKey (respData
        (executeFormattedQuery "t" [] 0 1 10 ⟨true, true, true⟩ "thing" "things").1) "things" =
      if (true : Bool) then some (Js.arr []) else none) ∧
    (lookupKey (respData
        (executeFormattedQuery "t" [] 0 1 10 ⟨true, true, true⟩ "thing" "things").1) "pagination" =
      if (true : Bool) then some (paginationBlock 0 1 10) else none) ∧
    ((⟨true, true, true⟩ : ResponseFormatOptions) = ⟨false, false, false⟩ →
      (executeFormattedQuery "t" [] 0 1 10 ⟨true, true, true⟩ "thing" "things").1 =
        createSuccessResponse "t"
          (jsCapitalize "thing" ++ " endpoint accessed successfully.") placeholderData) ∧
    ((executeFormattedQuery "t" [] 0 1 10 ⟨true, true, true⟩ "thing" "things").2.ranFindMany =
      true) ∧
    ((executeFormattedQuery "t" [] 0 1 10 ⟨true, true, true⟩ "thing" "things").2.ranCount =
      (true || true || true)) :=
  executeFormattedQuery_shape "t" [] 0 1 10 ⟨true, true, true⟩ "thing" "things"
    (by decide) (by decide) (by decide) (by decide)
